import Mathlib

/-!
Verification development for the retrieval subsystem of a RAG question-answering
pipeline: sliding-window text chunking (`backend/pdf_parser.py`), structured
`ko_txt` extraction and merged-file chunking (`backend/knowledge_indexer.py`),
a FAISS-backed vector store (`backend/vectorstore.py`), and the two-corpus
retrieval dispatch (`backend/qna.py`).

The Python code is shallowly embedded: strings are Lean `String`s, Python ints
are `Int`, `float32` embedding vectors are modelled as `List Int` with exact
squared-Euclidean distances (the distance arithmetic is abstracted to exact
integers; no claim below depends on floating-point rounding), and fallible code
returns `Option` (`none` = a raised exception / non-termination within fuel).
-/

/-! ### Python string/list semantics helpers -/

/-- Whitespace characters stripped by Python's `str.strip()` (ASCII range;
the Korean corpus text in the repository only ever uses these). -/
def isPyWs (c : Char) : Bool :=
  c == ' ' || c == '\t' || c == '\n' || c == '\r' || c == '\x0b' || c == '\x0c'

/-- Python `s.strip()`: remove leading and trailing whitespace. -/
def pyStrip (s : String) : String :=
  String.mk (((s.toList.dropWhile isPyWs).reverse.dropWhile isPyWs).reverse)

/-- Python list indexing `l[i]`: negative indices count from the end;
out-of-range access raises (`none`). -/
def pyListGet {α : Type} (l : List α) (i : Int) : Option α :=
  let j : Int := if i < 0 then (l.length : Int) + i else i
  if 0 ≤ j then l.get? j.toNat else none

/-- Python slicing `l[i:j]` (as used on strings in `chunk_text`):
negative bounds count from the end, bounds are clamped to `[0, len]`. -/
def pySlice (l : List Char) (i j : Int) : List Char :=
  let n : Int := l.length
  let i' : Int := if i < 0 then max 0 (n + i) else min i n
  let j' : Int := if j < 0 then max 0 (n + j) else min j n
  if i' < j' then (l.drop i'.toNat).take (j' - i').toNat else []

/-- Python `enumerate` starting at `n` (also models FAISS's assignment of
sequential integer ids to added vectors). -/
def withIdx {α : Type} : List α → Nat → List (Nat × α)
  | [], _ => []
  | a :: as, n => (n, a) :: withIdx as (n + 1)

/-! ### `backend/pdf_parser.py` — `chunk_text` -/

/-- One element of the list returned by `chunk_text`:
`{"text": ..., "index": ..., "start": ..., "end": ...}` (`end` is renamed
`stop`, `end` being a Lean keyword). -/
structure PdfChunk where
  text : String
  index : Nat
  start : Int
  stop : Int
deriving Repr, DecidableEq

/-- The `while start < len(text)` loop of `chunk_text`, with explicit fuel;
`none` means the fuel was exhausted before the loop condition turned false
(the loop does not terminate within `fuel` iterations).  `chunks` is the
accumulator list being appended to. -/
def chunkTextAux (text : List Char) (size overlap : Int) :
    Nat → Int → List PdfChunk → Option (List PdfChunk)
  | fuel, start, chunks =>
    if start < (text.length : Int) then
      match fuel with
      | 0 => none
      | fuel + 1 =>
        let stop := start + size
        let ct := String.mk (pySlice text start stop)
        let chunks' :=
          if pyStrip ct ≠ "" then
            chunks ++ [⟨ct, chunks.length, start, stop⟩]
          else chunks
        chunkTextAux text size overlap fuel (stop - overlap) chunks'
    else some chunks

/-- `chunk_text(text, chunk_size, overlap)`.  The fuel `text.length + 1`
is sufficient whenever `overlap < chunk_size` (proved below); `none` models
the infinite loop reached otherwise. -/
def chunk_text (text : String) (chunk_size overlap : Int) : Option (List PdfChunk) :=
  chunkTextAux text.toList chunk_size overlap (text.length + 1) 0 []

/-! ### `backend/vectorstore.py` — `VectorStore` -/

/-- An embedding vector (`float32` array, modelled with exact integers). -/
abbrev Vec := List Int

/-- A chunk dict as stored in a `VectorStore` (`{"text": ..., "index": ...}`,
the shape produced by `knowledge_indexer.build_index_from_merged`). -/
structure Chunk where
  text : String
  index : Nat
deriving Repr, DecidableEq

/-- The state of a `VectorStore`: the embedding model handle (`self.model`,
abstracted to a deterministic text-to-vector function), the FAISS index
(`self.index`, `none` before `create_index`/`load`; `some vs` models an
`IndexFlatL2` holding the added vectors in insertion order), and the chunk
metadata list (`self.chunks`). -/
structure VectorStore where
  model : String → Vec
  index : Option (List Vec)
  chunks : List Chunk

/-- `VectorStore.__init__`: starts with no index and an empty chunk list. -/
def mkVectorStore (model : String → Vec) : VectorStore :=
  ⟨model, none, []⟩

/-- Squared Euclidean distance, the metric of `faiss.IndexFlatL2`. -/
def sqDist (a b : Vec) : Int :=
  ((a.zip b).map (fun p => (p.1 - p.2) ^ 2)).sum

/-- Model of the `FLT_MAX` sentinel distance FAISS places in result slots
that have no matching stored vector (the integer value of `float32` max);
its exact value is irrelevant to every statement below. -/
def fltMaxModel : Int := 340282346638528859811704183484516925440

/-- Insert into a sorted list (ascending w.r.t. `le`). -/
def insertSorted {α : Type} (le : α → α → Bool) (a : α) : List α → List α
  | [] => [a]
  | b :: bs => if le a b then a :: b :: bs else b :: insertSorted le a bs

/-- Insertion sort, ascending w.r.t. `le`. -/
def sortByLe {α : Type} (le : α → α → Bool) : List α → List α
  | [] => []
  | a :: as => insertSorted le a (sortByLe le as)

/-- Model of `faiss.IndexFlatL2.search` for a single query: every stored
vector is scored by squared Euclidean distance, the `k` best (distance, id)
pairs are returned in ascending distance order (ties by ascending id), and
when fewer than `k` vectors are stored the remaining slots are padded with
`(FLT_MAX, -1)`. -/
def faissSearch (vs : List Vec) (q : Vec) (k : Nat) : List (Int × Int) :=
  let scored := (withIdx vs 0).map (fun p => (sqDist q p.2, (p.1 : Int)))
  let sorted := sortByLe
    (fun a b => decide (a.1 < b.1 ∨ (a.1 = b.1 ∧ a.2 ≤ b.2))) scored
  let top := sorted.take k
  top ++ List.replicate (k - top.length) (fltMaxModel, -1)

/-- The result loop of `VectorStore.search`:
`for dist, idx in zip(distances[0], indices[0]): if idx < len(self.chunks):
results.append((self.chunks[idx], float(dist)))`.  `self.chunks[idx]` uses
Python list indexing and can raise `IndexError` (`none`). -/
def buildResults (chunks : List Chunk) : List (Int × Int) → Option (List (Chunk × Int))
  | [] => some []
  | (dist, idx) :: rest =>
    if idx < (chunks.length : Int) then
      match pyListGet chunks idx with
      | none => none
      | some c => (buildResults chunks rest).map (fun r => (c, dist) :: r)
    else buildResults chunks rest

/-- `VectorStore.search(query, top_k)`: returns `[]` when the index was never
built (`self.index is None`), otherwise embeds the query, runs the FAISS
search, and filters/collects results; `none` models a raised exception. -/
def VectorStore.search (store : VectorStore) (query : String) (top_k : Nat) :
    Option (List (Chunk × Int)) :=
  match store.index with
  | none => some []
  | some vecs =>
    let query_embedding := store.model query
    buildResults store.chunks (faissSearch vecs query_embedding top_k)

/-- `VectorStore.create_index(chunks)`: embeds every chunk's text in order,
builds a fresh `IndexFlatL2` holding those vectors, and stores the chunk
metadata alongside. -/
def VectorStore.create_index (store : VectorStore) (chunks : List Chunk) : VectorStore :=
  let texts := chunks.map Chunk.text
  let embeddings := texts.map store.model
  { store with index := some embeddings, chunks := chunks }

/-- `VectorStore.save(path)`: writes the FAISS index artifact (`index.faiss`)
and the chunk-metadata artifact (`chunks.pkl`).  `faiss.write_index` raises on
a never-built (`None`) index, hence the `Option`. -/
def VectorStore.save (store : VectorStore) : Option (List Vec × List Chunk) :=
  match store.index with
  | none => none
  | some vecs => some (vecs, store.chunks)

/-- `VectorStore.load(path)`: reads both artifacts from the directory; a
missing artifact makes the corresponding read raise (`none`).  No consistency
check between the two artifacts is performed.  On success both in-memory
fields are fully replaced; the model handle is untouched. -/
def VectorStore.load (store : VectorStore)
    (indexArtifact : Option (List Vec)) (chunksArtifact : Option (List Chunk)) :
    Option VectorStore :=
  match indexArtifact, chunksArtifact with
  | some vecs, some chunks => some { store with index := some vecs, chunks := chunks }
  | _, _ => none

/-- The spec's Vector Index invariant: when an index is present, the number of
stored chunks equals the number of stored embedding vectors. -/
def VectorStore.wf (store : VectorStore) : Prop :=
  match store.index with
  | none => True
  | some vecs => store.chunks.length = vecs.length

/-! ### `backend/knowledge_indexer.py` — `_extract_ko_txt` and merged-file chunking -/

/-- Parsed JSON values (the `payload` argument of `_extract_ko_txt`). -/
inductive Json where
  | null
  | bool (b : Bool)
  | num (n : Int)
  | str (s : String)
  | arr (items : List Json)
  | obj (fields : List (String × Json))

/-- Python `d.get(key)` on a dict (`none` when the key is absent; also the
truth value of `key in d`). -/
def jsonGet (fields : List (String × Json)) (key : String) : Option Json :=
  fields.lookup key

/-- The inner helper `add(value)` of `_extract_ko_txt`: keep `value` only if
it is a string whose `strip()` is non-empty, appending the stripped form. -/
def addKoTxt (value : Option Json) : List String :=
  match value with
  | some (.str s) => if pyStrip s = "" then [] else [pyStrip s]
  | _ => []

/-- `walk_ko_info(ko_info)`: a list contributes its dict items' `ko_txt`
values; a dict contributes its own `ko_txt`; anything else contributes
nothing. -/
def walk_ko_info : Json → List String
  | .arr items =>
    items.flatMap (fun item =>
      match item with
      | .obj fs => addKoTxt (jsonGet fs "ko_txt")
      | _ => [])
  | .obj fs => addKoTxt (jsonGet fs "ko_txt")
  | _ => []

/-- `walk_corpus(corpus)`: a list contributes, per dict entry having a
`ko_info` key, that entry's `ko_info` walk; a dict having a `ko_info` key
contributes its own walk. -/
def walk_corpus : Json → List String
  | .arr entries =>
    entries.flatMap (fun entry =>
      match entry with
      | .obj fs =>
        match jsonGet fs "ko_info" with
        | some ko_info => walk_ko_info ko_info
        | none => []
      | _ => [])
  | .obj fs =>
    match jsonGet fs "ko_info" with
    | some ko_info => walk_ko_info ko_info
    | none => []
  | _ => []

/-- `_extract_ko_txt(payload)`: collect along `corpus -> ko_info -> ko_txt`
(from a root dict, or from each dict item of a root list) and join the parts
with a single newline. -/
def extract_ko_txt (payload : Json) : String :=
  let parts : List String :=
    match payload with
    | .obj fs =>
      match jsonGet fs "corpus" with
      | some corpus => walk_corpus corpus
      | none => []
    | .arr items =>
      items.flatMap (fun item =>
        match item with
        | .obj fs =>
          match jsonGet fs "corpus" with
          | some corpus => walk_corpus corpus
          | none => []
        | _ => [])
    | _ => []
  String.intercalate "\n" parts

/-! A second set of definitions, written from the specification's words
("collects exactly the non-empty trimmed `ko_txt` string values reachable
along the schema path root -> corpus -> ko_info -> ko_txt, in document
order"), to be compared with the code's `extract_ko_txt` above. -/

/-- Spec reading: a record's contribution is its `ko_txt` field when that
field is a string with non-empty trim; malformed records contribute
nothing. -/
def specRecordTxt (record : Json) : List String :=
  match record with
  | .obj fs =>
    match jsonGet fs "ko_txt" with
    | some (.str s) => if pyStrip s = "" then [] else [pyStrip s]
    | _ => []
  | _ => []

/-- Spec reading: `ko_info` is a single record or a sequence of records. -/
def specKoInfoTxt (ko_info : Json) : List String :=
  match ko_info with
  | .arr records => records.flatMap specRecordTxt
  | _ => specRecordTxt ko_info

/-- Spec reading: an entry contributes through its `ko_info` field. -/
def specEntryTxt (entry : Json) : List String :=
  match entry with
  | .obj fs =>
    match jsonGet fs "ko_info" with
    | some ko_info => specKoInfoTxt ko_info
    | none => []
  | _ => []

/-- Spec reading: `corpus` is a single entry or a sequence of entries. -/
def specCorpusTxt (corpus : Json) : List String :=
  match corpus with
  | .arr entries => entries.flatMap specEntryTxt
  | _ => specEntryTxt corpus

/-- Spec reading: a document contributes through its `corpus` field. -/
def specDocTxt (doc : Json) : List String :=
  match doc with
  | .obj fs =>
    match jsonGet fs "corpus" with
    | some corpus => specCorpusTxt corpus
    | none => []
  | _ => []

/-- Spec reading: the values reachable along the schema path, in document
order; a root sequence is a sequence of documents. -/
def specKoTxtValues (payload : Json) : List String :=
  match payload with
  | .arr docs => docs.flatMap specDocTxt
  | _ => specDocTxt payload

/-- The `re.split(r"\n{2,}", text)` scan of `build_index_from_merged`,
as a left-to-right automaton: `nl` counts the newlines read since the last
non-newline character, `acc` holds the current segment reversed, and `out`
the finished segments.  A maximal run of two or more newlines separates
segments; a lone newline stays inside its segment. -/
def splitOnNl2 : List Char → Nat → List Char → List String → List String
  | [], nl, acc, out =>
    if 2 ≤ nl then out ++ [String.mk acc.reverse, ""]
    else out ++ [String.mk (acc.reverse ++ List.replicate nl '\n')]
  | c :: rest, nl, acc, out =>
    if c = '\n' then splitOnNl2 rest (nl + 1) acc out
    else if 2 ≤ nl then splitOnNl2 rest 0 [c] (out ++ [String.mk acc.reverse])
    else splitOnNl2 rest 0 (c :: (List.replicate nl '\n').reverse ++ acc) out

/-- `re.split(r"\n{2,}", text)`. -/
def reSplitNl2 (text : String) : List String := splitOnNl2 text.toList 0 [] []

/-- Line 100 of `knowledge_indexer.py`:
`parts = [seg.strip() for seg in re.split(r"\n{2,}", text) if seg.strip()]`. -/
def mergedParts (text : String) : List String :=
  (reSplitNl2 text).filterMap (fun seg =>
    if pyStrip seg = "" then none else some (pyStrip seg))

/-- Line 101: `chunks = [{"text": seg, "index": i} for i, seg in
enumerate(parts)]`. -/
def mergedChunks (text : String) : List Chunk :=
  (withIdx (mergedParts text) 0).map (fun p => ⟨p.2, p.1⟩)

/-! ### `backend/qna.py` — retrieval dispatch of `answer_with_knowledge` -/

/-- Lines 25–28 of `qna.py`: the per-corpus retrieval dispatch of
`QnASystem.answer_with_knowledge` (the subsequent prompt assembly and the
LLM call are outside the retrieval core).  `none` arguments model absent
(`None`) vectorstores; a raised search exception propagates. -/
def answer_retrieval (knowledge_vectorstore user_pdf_vectorstore : Option VectorStore)
    (question : String) (top_k : Nat) :
    Option (List (Chunk × Int) × List (Chunk × Int)) := do
  let knowledge_results ←
    match knowledge_vectorstore with
    | some store => store.search question top_k
    | none => some []
  let pdf_results ←
    match user_pdf_vectorstore with
    | some store => store.search question top_k
    | none => some []
  pure (knowledge_results, pdf_results)

/-! ### Concrete instances used in closed statements -/

/-- A deterministic embedding model mapping every text to the vector `[0]`. -/
def constModel : String → Vec := fun _ => [0]

/-- A deterministic embedding model mapping a text to its length. -/
def lenModel : String → Vec := fun s => [(s.length : Int)]

/-- An index built on a single chunk. -/
def store1 : VectorStore := (mkVectorStore constModel).create_index [⟨"a", 0⟩]

/-- An index built on zero chunks. -/
def store0 : VectorStore := (mkVectorStore constModel).create_index []

/-- A knowledge index built on two chunks. -/
def store2 : VectorStore :=
  (mkVectorStore lenModel).create_index [⟨"k1", 0⟩, ⟨"seg2", 1⟩]

/-- The spec's extractor scenario input:
`{"corpus": [{"ko_info": [{"ko_txt": "A"}, {"ko_txt": " "}]},
             {"ko_info": {"ko_txt": "B"}}]}`. -/
def extractorScenario : Json :=
  .obj [("corpus", .arr [
    .obj [("ko_info", .arr [.obj [("ko_txt", .str "A")], .obj [("ko_txt", .str " ")]])],
    .obj [("ko_info", .obj [("ko_txt", .str "B")])]])]

/-! ### Chunker theorems -/

/-- Fuel adequacy for the `chunk_text` loop: when the window step
`size - overlap` is positive, `len(text) - start` more iterations always
suffice. -/
theorem chunkTextAux_isSome (text : List Char) (size overlap : Int)
    (hstep : overlap < size) :
    ∀ (fuel : Nat) (start : Int) (chunks : List PdfChunk),
      (text.length : Int) ≤ start + fuel →
      (chunkTextAux text size overlap fuel start chunks).isSome := by
  intro fuel
  induction fuel with
  | zero =>
    intro start chunks hle
    unfold chunkTextAux
    rw [if_neg (by omega)]
    simp
  | succ f ih =>
    intro start chunks hle
    unfold chunkTextAux
    split
    · exact ih _ _ (by omega)
    · simp

/-- C10 (part): under `overlap >= size` the loop start does not advance and
the loop never terminates, whatever the fuel; shown at `text="a"`,
`size = overlap = 1`. -/
theorem chunkTextAux_diverges :
    ∀ (fuel : Nat) (chunks : List PdfChunk),
      chunkTextAux ("a".toList) 1 1 fuel 0 chunks = none := by
  intro fuel
  induction fuel with
  | zero => intro chunks; rfl
  | succ f ih =>
    intro chunks
    show chunkTextAux ("a".toList) 1 1 f 0
      (chunks ++ [⟨"a", chunks.length, 0, 1⟩]) = none
    exact ih _

/-- C10: the chunking loop terminates for every input text whenever
`0 <= overlap < chunk_size` (each iteration advances the window start by the
strictly positive `chunk_size - overlap`); the precondition is genuinely
needed: with `overlap = chunk_size` the start does not advance and the loop
runs forever (no amount of fuel makes it finish). -/
theorem chunk_text_terminates_iff_step_positive :
    (∀ (text : String) (chunk_size overlap : Int),
      0 ≤ overlap → overlap < chunk_size →
      (chunk_text text chunk_size overlap).isSome) ∧
    (∀ (fuel : Nat) (chunks : List PdfChunk),
      chunkTextAux ("a".toList) 1 1 fuel 0 chunks = none) :=
  ⟨fun text size overlap _ h1 =>
    chunkTextAux_isSome text.toList size overlap h1 _ 0 [] (by
      simp only [Int.zero_add]
      exact_mod_cast Nat.le_succ _),
   chunkTextAux_diverges⟩

/-- Witness for the termination theorem at `text="ab"`, `size=5`, `overlap=2`. -/
theorem chunk_text_terminates_iff_step_positive_witness :
    (0 : Int) ≤ 2 ∧ (2 : Int) < 5 ∧ (chunk_text "ab" 5 2).isSome :=
  ⟨by decide, by decide,
   chunk_text_terminates_iff_step_positive.1 "ab" 5 2 (by decide) (by decide)⟩

/-- The `index` field of every chunk appended by the loop equals the length
of the accumulator at append time, so contiguity of indices is preserved. -/
theorem chunkTextAux_indices (text : List Char) (size overlap : Int) :
    ∀ (fuel : Nat) (start : Int) (acc res : List PdfChunk),
      acc.map PdfChunk.index = List.range acc.length →
      chunkTextAux text size overlap fuel start acc = some res →
      res.map PdfChunk.index = List.range res.length := by
  intro fuel
  induction fuel with
  | zero =>
    intro start acc res hacc h
    unfold chunkTextAux at h
    split at h
    · exact absurd h (by simp)
    · cases h; exact hacc
  | succ f ih =>
    intro start acc res hacc h
    unfold chunkTextAux at h
    split at h
    · refine ih _ _ _ ?_ h
      split
      · rw [List.map_append, hacc, List.length_append]
        simp [List.range_succ]
      · exact hacc
    · cases h; exact hacc

/-- C8: for every text, `size > 0` and `0 <= overlap < size`, the emitted
chunks' `index` values are contiguous starting at 0 (`[0, 1, ..., n-1]` in
emission order); skipped whitespace-only windows do not consume a slot. -/
theorem chunk_text_indices_contiguous (text : String) (chunk_size overlap : Int)
    (res : List PdfChunk)
    (hsz : 0 < chunk_size) (h0 : 0 ≤ overlap) (h1 : overlap < chunk_size)
    (h : chunk_text text chunk_size overlap = some res) :
    res.map PdfChunk.index = List.range res.length :=
  chunkTextAux_indices text.toList chunk_size overlap _ 0 [] res (by simp) h

/-- Witness: `chunk_text " b" 1 0` skips the whitespace-only first window and
still numbers the emitted chunks contiguously from 0. -/
theorem chunk_text_indices_contiguous_witness :
    chunk_text " b" 1 0 = some [⟨"b", 0, 1, 2⟩] ∧
    List.map PdfChunk.index [(⟨"b", 0, 1, 2⟩ : PdfChunk)] = List.range 1 :=
  ⟨by decide,
   chunk_text_indices_contiguous " b" 1 0 [⟨"b", 0, 1, 2⟩] (by decide) (by decide)
     (by decide) (by decide)⟩

/-- Slicing `l[0:j]` with `j >= len(l)` returns the whole list. -/
theorem pySlice_full (l : List Char) (j : Int) (hj : (l.length : Int) ≤ j) :
    pySlice l 0 j = l := by
  unfold pySlice
  have h0 : ¬ ((0 : Int) < 0) := by omega
  have hjn : ¬ (j < 0) := by omega
  simp only [if_neg hjn]
  rcases Nat.eq_zero_or_pos l.length with hz | hp
  · have : l = [] := List.length_eq_zero.mp hz
    subst this
    simp
  · have hmin0 : min (0 : Int) (l.length : Int) = 0 := by omega
    have hminj : min j (l.length : Int) = (l.length : Int) := by omega
    simp only [hmin0, hminj]
    rw [if_pos (by exact_mod_cast hp)]
    simp

/-- C3 counterexample: `size = 5 >= len("abcde") = 5` and `overlap = 3`
satisfy the claim's precondition `0 <= overlap < size`, yet three chunks are
produced, because the window start advances by only `size - overlap = 2`. -/
theorem chunk_text_size_ge_len_three_chunks :
    chunk_text "abcde" 5 3 =
      some [⟨"abcde", 0, 0, 5⟩, ⟨"cde", 1, 2, 7⟩, ⟨"e", 2, 4, 9⟩] := by
  decide

theorem chunkTextAux_step (text : List Char) (size overlap : Int) (fuel : Nat)
    (start : Int) (chunks : List PdfChunk) (h : start < (text.length : Int)) :
    chunkTextAux text size overlap (fuel + 1) start chunks =
      chunkTextAux text size overlap fuel (start + size - overlap)
        (if pyStrip (String.mk (pySlice text start (start + size))) ≠ ""
         then chunks ++ [⟨String.mk (pySlice text start (start + size)),
                          chunks.length, start, start + size⟩]
         else chunks) := by
  simp only [chunkTextAux]
  rw [if_pos h]

theorem chunkTextAux_done (text : List Char) (size overlap : Int) (fuel : Nat)
    (start : Int) (chunks : List PdfChunk) (h : ¬ start < (text.length : Int)) :
    chunkTextAux text size overlap fuel start chunks = some chunks := by
  cases fuel with
  | zero =>
    simp only [chunkTextAux]
    rw [if_neg h]
  | succ f =>
    simp only [chunkTextAux]
    rw [if_neg h]

/-- C3 amended: when additionally the step `size - overlap` reaches past the
whole text (in particular whenever `overlap = 0` and `size >= len(text)`),
the chunker emits exactly one chunk holding the whole text if the trimmed
text is non-empty, and zero chunks otherwise. -/
theorem chunk_text_single_window (text : String) (chunk_size overlap : Int)
    (h0 : 0 ≤ overlap) (h1 : overlap < chunk_size)
    (h2 : (text.length : Int) ≤ chunk_size - overlap) :
    chunk_text text chunk_size overlap =
      some (if pyStrip text = "" then [] else [⟨text, 0, 0, chunk_size⟩]) := by
  obtain ⟨data⟩ := text
  have hsl : (String.mk data).length = data.length := rfl
  rw [hsl] at h2
  unfold chunk_text
  rcases Nat.eq_zero_or_pos data.length with hz | hp
  · have hd : data = [] := List.length_eq_zero.mp hz
    subst hd
    rw [chunkTextAux_done _ _ _ _ _ _ (by simp)]
    rfl
  · have hlt : (0 : Int) < (((String.mk data).toList).length : Int) := by
      show (0 : Int) < (data.length : Int)
      exact_mod_cast hp
    rw [hsl, chunkTextAux_step _ _ _ _ _ _ hlt,
        chunkTextAux_done _ _ _ _ _ _ (by
          show ¬ (0 + chunk_size - overlap < (data.length : Int))
          omega)]
    have hfull : pySlice ((String.mk data).toList) 0 (0 + chunk_size) = data :=
      pySlice_full data (0 + chunk_size) (by omega)
    rw [hfull]
    by_cases hws : pyStrip (String.mk data) = ""
    · rw [if_neg (by simpa using hws), if_pos hws]
    · rw [if_pos (by simpa using hws), if_neg hws]
      norm_num

/-- Witness for the amended single-window theorem at `text="hi"`, `size=9`,
`overlap=4` (and, for the zero-chunk arm, whitespace text `" "`). -/
theorem chunk_text_single_window_witness :
    (0 : Int) ≤ 4 ∧ (4 : Int) < 9 ∧ (("hi".length : Int) ≤ 9 - 4) ∧
    chunk_text "hi" 9 4 = some [⟨"hi", 0, 0, 9⟩] ∧
    chunk_text " " 9 4 = some [] :=
  ⟨by decide, by decide, by decide,
   by
    have h := chunk_text_single_window "hi" 9 4 (by decide) (by decide) (by decide)
    rwa [if_neg (by decide)] at h,
   by
    have h := chunk_text_single_window " " 9 4 (by decide) (by decide) (by decide)
    rwa [if_pos (by decide)] at h⟩

/-! ### Vector store theorems -/

/-- C1 (refuting evaluation): on an index holding exactly one chunk, a search
with `top_k = 2` returns two results, the single stored chunk twice — FAISS
pads the missing slot with label `-1`, the guard `idx < len(self.chunks)`
admits `-1`, and Python's `chunks[-1]` resolves to the last chunk. -/
theorem search_topk_overflow_duplicates_last_chunk :
    store1.chunks.length = 1 ∧
    (store1.search "q" 2).map (fun r => r.map Prod.fst) =
      some [⟨"a", 0⟩, ⟨"a", 0⟩] :=
  ⟨rfl, by decide⟩

/-- C4: a never-built index (`self.index is None`) returns `[]` for every
query and `top_k` without raising; but an index built on zero chunks does
*not* — the padded label `-1` passes the guard and `chunks[-1]` raises
`IndexError` on the empty chunk list (`none`). -/
theorem search_empty_index_behavior :
    (∀ (model : String → Vec) (chunks : List Chunk) (query : String) (top_k : Nat),
      (VectorStore.mk model none chunks).search query top_k = some []) ∧
    store0.chunks = [] ∧ store0.index = some [] ∧
    store0.search "q" 1 = none :=
  ⟨fun _ _ _ _ => rfl, rfl, rfl, by decide⟩

/-- C2: saving a populated index and loading the artifacts into a fresh store
that holds the same (deterministic) embedding model yields a store whose
search results are identical to the original's for every query and `top_k`. -/
theorem save_load_roundtrip_search_identical (X fresh : VectorStore)
    (art : List Vec × List Chunk)
    (hmodel : fresh.model = X.model) (hsave : X.save = some art) :
    ∃ Y, fresh.load (some art.1) (some art.2) = some Y ∧
      ∀ (query : String) (top_k : Nat),
        Y.search query top_k = X.search query top_k := by
  obtain ⟨m, i, c⟩ := X
  obtain ⟨m', i', c'⟩ := fresh
  cases i with
  | none => exact absurd hsave (by simp [VectorStore.save])
  | some vecs =>
    simp only [VectorStore.save, Option.some.injEq] at hsave
    subst hsave
    have hm : m' = m := hmodel
    subst hm
    exact ⟨_, rfl, fun _ _ => rfl⟩

/-- Witness: round trip of the one-chunk index `store1` through its saved
artifacts into a fresh store built over the same model. -/
theorem save_load_roundtrip_search_identical_witness :
    ∃ Y, (mkVectorStore constModel).load (some [[0]]) (some [⟨"a", 0⟩]) = some Y ∧
      ∀ (query : String) (top_k : Nat),
        Y.search query top_k = store1.search query top_k :=
  save_load_roundtrip_search_identical store1 (mkVectorStore constModel)
    ([[0]], [⟨"a", 0⟩]) rfl rfl

/-- C9 (refuting evaluation): `load` succeeds on mutually inconsistent
artifacts — an index artifact with two vectors next to a chunk artifact with
one chunk — and the resulting state violates `len(chunks) == len(vectors)`;
the code performs no consistency check. -/
theorem load_inconsistent_artifacts_succeeds :
    (mkVectorStore constModel).load (some [[0], [1]]) (some [⟨"a", 0⟩])
      = some ⟨constModel, some [[0], [1]], [⟨"a", 0⟩]⟩ ∧
    ¬ VectorStore.wf ⟨constModel, some [[0], [1]], [⟨"a", 0⟩]⟩ :=
  ⟨rfl, by simp [VectorStore.wf]⟩

/-- C9 amended: `load` succeeds exactly when both artifacts are present (no
mutual-consistency check is made); the `len(chunks) == len(vectors)` invariant
holds in every state produced by `create_index`, and in every state produced
by `load` of artifacts that `save` wrote from a state satisfying it. -/
theorem load_presence_and_wf_invariants :
    (∀ (s : VectorStore) (ia : Option (List Vec)) (ca : Option (List Chunk)),
        (s.load ia ca).isSome ↔ (ia.isSome ∧ ca.isSome)) ∧
    (∀ (s : VectorStore) (cs : List Chunk), (s.create_index cs).wf) ∧
    (∀ (s t u : VectorStore) (art : List Vec × List Chunk),
        s.wf → s.save = some art →
        t.load (some art.1) (some art.2) = some u → u.wf) := by
  refine ⟨?_, ?_, ?_⟩
  · intro s ia ca
    cases ia <;> cases ca <;> simp [VectorStore.load]
  · intro s cs
    simp [VectorStore.wf, VectorStore.create_index]
  · intro s t u art hwf hsave hload
    obtain ⟨m, i, c⟩ := s
    cases i with
    | none => exact absurd hsave (by simp [VectorStore.save])
    | some vecs =>
      simp only [VectorStore.save, Option.some.injEq] at hsave
      subst hsave
      simp only [VectorStore.load, Option.some.injEq] at hload
      subst hload
      simpa [VectorStore.wf] using hwf

/-- Witness for the invariants theorem: loading the artifacts saved from the
build-produced `store1` into a fresh store yields a state satisfying the
chunk/vector count invariant. -/
theorem load_presence_and_wf_invariants_witness :
    VectorStore.wf ⟨constModel, some [[0]], [⟨"a", 0⟩]⟩ :=
  load_presence_and_wf_invariants.2.2 store1 (mkVectorStore constModel)
    ⟨constModel, some [[0]], [⟨"a", 0⟩]⟩ ([[0]], [⟨"a", 0⟩])
    (load_presence_and_wf_invariants.2.1 (mkVectorStore constModel) [⟨"a", 0⟩])
    rfl rfl

/-- Membership through sorted insertion. -/
theorem mem_insertSorted {α : Type} (le : α → α → Bool) (a x : α) :
    ∀ l : List α, x ∈ insertSorted le a l → x = a ∨ x ∈ l := by
  intro l
  induction l with
  | nil =>
    intro h
    simp only [insertSorted, List.mem_singleton] at h
    exact Or.inl h
  | cons b bs ih =>
    intro h
    simp only [insertSorted] at h
    split at h
    · exact List.mem_cons.mp h
    · rcases List.mem_cons.mp h with h' | h'
      · exact Or.inr (h' ▸ List.mem_cons_self _ _)
      · rcases ih h' with h'' | h''
        · exact Or.inl h''
        · exact Or.inr (List.mem_cons_of_mem _ h'')

/-- Membership through insertion sort. -/
theorem mem_sortByLe {α : Type} (le : α → α → Bool) :
    ∀ (l : List α) (x : α), x ∈ sortByLe le l → x ∈ l := by
  intro l
  induction l with
  | nil => intro x h; simp [sortByLe] at h
  | cons a as ih =>
    intro x h
    simp only [sortByLe] at h
    rcases mem_insertSorted le a x _ h with h' | h'
    · exact h' ▸ List.mem_cons_self _ _
    · exact List.mem_cons_of_mem _ (ih x h')

/-- Every pair produced by `withIdx l n` carries an index in `[n, n+len)`. -/
theorem withIdx_fst_bounds {α : Type} :
    ∀ (l : List α) (n : Nat) (p : Nat × α),
      p ∈ withIdx l n → n ≤ p.1 ∧ p.1 < n + l.length := by
  intro l
  induction l with
  | nil => intro n p h; simp [withIdx] at h
  | cons a as ih =>
    intro n p h
    simp only [withIdx] at h
    rcases List.mem_cons.mp h with h' | h'
    · subst h'
      simp only [List.length_cons]
      omega
    · have := ih (n + 1) p h'
      simp only [List.length_cons]
      omega

/-- Every label returned by the FAISS search model is either the `-1` padding
or the id of a stored vector. -/
theorem faissSearch_labels (vs : List Vec) (q : Vec) (k : Nat) :
    ∀ p ∈ faissSearch vs q k, p.2 = -1 ∨ (0 ≤ p.2 ∧ p.2 < (vs.length : Int)) := by
  intro p hp
  simp only [faissSearch] at hp
  rcases List.mem_append.mp hp with h | h
  · have h1 := List.mem_of_mem_take h
    have h2 := mem_sortByLe _ _ _ h1
    rcases List.mem_map.mp h2 with ⟨q', hq', rfl⟩
    have hb := withIdx_fst_bounds vs 0 q' hq'
    right
    constructor
    · show (0 : Int) ≤ (q'.1 : Int)
      exact_mod_cast Nat.zero_le _
    · show ((q'.1 : Int)) < (vs.length : Int)
      exact_mod_cast (by omega : q'.1 < vs.length)
  · left
    have := List.eq_of_mem_replicate h
    rw [this]

/-- `faissSearch` always returns exactly `k` result slots. -/
theorem faissSearch_length (vs : List Vec) (q : Vec) (k : Nat) :
    (faissSearch vs q k).length = k := by
  simp only [faissSearch]
  rw [List.length_append, List.length_replicate, List.length_take]
  have := Nat.min_le_left k
    ((sortByLe (fun a b => decide (a.1 < b.1 ∨ (a.1 = b.1 ∧ a.2 ≤ b.2)))
      ((withIdx vs 0).map (fun p => (sqDist q p.2, (p.1 : Int))))).length)
  omega

/-- In-range non-negative Python indexing succeeds. -/
theorem pyListGet_nonneg {α : Type} (l : List α) (i : Int) (h0 : 0 ≤ i)
    (h1 : i < (l.length : Int)) : ∃ a, pyListGet l i = some a := by
  have hn : i.toNat < l.length := by omega
  refine ⟨l.get ⟨i.toNat, hn⟩, ?_⟩
  simp only [pyListGet, if_neg (show ¬ i < 0 by omega), if_pos h0]
  exact List.get?_eq_get hn

/-- Python indexing by `-1` on a non-empty list returns its last element. -/
theorem pyListGet_neg_one {α : Type} (l : List α) (h : l ≠ []) :
    ∃ a, pyListGet l (-1) = some a := by
  have hl : 0 < l.length := List.length_pos.mpr h
  have hn : ((l.length : Int) + -1).toNat < l.length := by omega
  refine ⟨l.get ⟨((l.length : Int) + -1).toNat, hn⟩, ?_⟩
  simp only [pyListGet, if_pos (show (-1 : Int) < 0 by decide),
    if_pos (show (0 : Int) ≤ (l.length : Int) + -1 by omega)]
  exact List.get?_eq_get hn

/-- When every hit label is `-1` or in range and the chunk list is non-empty,
the result loop raises no exception and yields at most one result per hit. -/
theorem buildResults_total (chunks : List Chunk) (hne : chunks ≠ []) :
    ∀ hits : List (Int × Int),
      (∀ p ∈ hits, p.2 = -1 ∨ (0 ≤ p.2 ∧ p.2 < (chunks.length : Int))) →
      ∃ r, buildResults chunks hits = some r ∧ r.length ≤ hits.length := by
  intro hits
  induction hits with
  | nil => exact fun _ => ⟨[], rfl, by simp⟩
  | cons p rest ih =>
    intro hall
    obtain ⟨r, hr, hlen⟩ := ih (fun q hq => hall q (List.mem_cons_of_mem _ hq))
    obtain ⟨d, i⟩ := p
    rcases hall (d, i) (List.mem_cons_self _ _) with hneg | ⟨hge, hlt⟩
    · simp only at hneg
      subst hneg
      obtain ⟨c, hc⟩ := pyListGet_neg_one chunks hne
      refine ⟨(c, d) :: r, ?_, ?_⟩
      · simp only [buildResults,
          if_pos (show (-1 : Int) < (chunks.length : Int) by
            have := List.length_pos.mpr hne; omega), hc, hr, Option.map_some']
      · simp only [List.length_cons]
        omega
    · obtain ⟨c, hc⟩ := pyListGet_nonneg chunks i hge hlt
      refine ⟨(c, d) :: r, ?_, ?_⟩
      · simp only [buildResults, if_pos hlt, hc, hr, Option.map_some']
      · simp only [List.length_cons]
        omega

/-- Search on a well-formed populated index never raises and returns at most
`top_k` results. -/
theorem search_populated (s : VectorStore) (vecs : List Vec)
    (hidx : s.index = some vecs) (hlen : s.chunks.length = vecs.length)
    (hne : s.chunks ≠ []) (query : String) (top_k : Nat) :
    ∃ r, s.search query top_k = some r ∧ r.length ≤ top_k := by
  have hunfold : s.search query top_k =
      buildResults s.chunks (faissSearch vecs (s.model query) top_k) := by
    unfold VectorStore.search
    rw [hidx]
  obtain ⟨r, hr, hl⟩ := buildResults_total s.chunks hne
    (faissSearch vecs (s.model query) top_k)
    (fun p hp => by
      rcases faissSearch_labels vecs (s.model query) top_k p hp with h | ⟨h1, h2⟩
      · exact Or.inl h
      · exact Or.inr ⟨h1, by rw [hlen]; exact h2⟩)
  rw [faissSearch_length] at hl
  exact ⟨r, hunfold ▸ hr, hl⟩

/-- C6: when one requested corpus's store is absent (`None`) or empty (never
built) while the other corpus is populated and well-formed, the dispatch
returns the populated corpus's results (at most `top_k` of them) paired with
an empty result list for the empty corpus, and raises nothing — in either
orientation (empty user corpus, or empty knowledge corpus). -/
theorem answer_retrieval_partial_corpus_tolerance :
    (∀ (ks : VectorStore) (user_pdf : Option VectorStore) (vecs : List Vec)
       (question : String) (top_k : Nat),
       ks.index = some vecs → ks.chunks.length = vecs.length → ks.chunks ≠ [] →
       (user_pdf = none ∨ ∃ us, user_pdf = some us ∧ us.index = none) →
       ∃ kr, answer_retrieval (some ks) user_pdf question top_k = some (kr, []) ∧
         kr.length ≤ top_k) ∧
    (∀ (us : VectorStore) (knowledge : Option VectorStore) (vecs : List Vec)
       (question : String) (top_k : Nat),
       us.index = some vecs → us.chunks.length = vecs.length → us.chunks ≠ [] →
       (knowledge = none ∨ ∃ ks, knowledge = some ks ∧ ks.index = none) →
       ∃ ur, answer_retrieval knowledge (some us) question top_k = some ([], ur) ∧
         ur.length ≤ top_k) := by
  constructor
  · intro ks user_pdf vecs question top_k hidx hlen hne huser
    obtain ⟨kr, hkr, hlen'⟩ := search_populated ks vecs hidx hlen hne question top_k
    refine ⟨kr, ?_, hlen'⟩
    rcases huser with h | ⟨us, h, hus⟩
    · subst h
      simp [answer_retrieval, hkr]
    · subst h
      have hus' : us.search question top_k = some [] := by
        unfold VectorStore.search
        rw [hus]
      simp [answer_retrieval, hkr, hus']
  · intro us knowledge vecs question top_k hidx hlen hne hknow
    obtain ⟨ur, hur, hlen'⟩ := search_populated us vecs hidx hlen hne question top_k
    refine ⟨ur, ?_, hlen'⟩
    rcases hknow with h | ⟨ks, h, hks⟩
    · subst h
      simp [answer_retrieval, hur]
    · subst h
      have hks' : ks.search question top_k = some [] := by
        unfold VectorStore.search
        rw [hks]
      simp [answer_retrieval, hur, hks']

/-- Witness, both orientations: a two-chunk index next to an absent (`None`)
user store, and a never-built (empty) knowledge store next to a two-chunk
user index, each with `top_k = 3`. -/
theorem answer_retrieval_partial_corpus_tolerance_witness :
    (∃ kr, answer_retrieval (some store2) none "q" 3 = some (kr, []) ∧
      kr.length ≤ 3) ∧
    (∃ ur, answer_retrieval (some (mkVectorStore constModel)) (some store2) "q" 3
        = some ([], ur) ∧ ur.length ≤ 3) :=
  ⟨answer_retrieval_partial_corpus_tolerance.1 store2 none [[2], [4]] "q" 3
     rfl (by decide) (by decide) (Or.inl rfl),
   answer_retrieval_partial_corpus_tolerance.2 store2
     (some (mkVectorStore constModel)) [[2], [4]] "q" 3
     rfl (by decide) (by decide)
     (Or.inr ⟨mkVectorStore constModel, rfl, rfl⟩)⟩

/-! ### Corpus extractor theorems -/

/-- The `add`-on-`ko_txt` step agrees with the spec's per-record reading. -/
theorem addKoTxt_eq_specRecord (fs : List (String × Json)) :
    addKoTxt (jsonGet fs "ko_txt") = specRecordTxt (.obj fs) := by
  cases h : jsonGet fs "ko_txt" with
  | none => simp [addKoTxt, specRecordTxt, h]
  | some v => cases v <;> simp [addKoTxt, specRecordTxt, h]

/-- `walk_ko_info` agrees with the spec's reading of the `ko_info` level. -/
theorem walk_ko_info_eq (j : Json) : walk_ko_info j = specKoInfoTxt j := by
  cases j with
  | arr items =>
    simp only [walk_ko_info, specKoInfoTxt]
    exact List.flatMap_congr (fun it _ => by
      cases it <;> simp [specRecordTxt, addKoTxt_eq_specRecord])
  | obj fs => exact addKoTxt_eq_specRecord fs
  | null => rfl
  | bool b => rfl
  | num n => rfl
  | str s => rfl

/-- `walk_corpus` agrees with the spec's reading of the `corpus` level. -/
theorem walk_corpus_eq (c : Json) : walk_corpus c = specCorpusTxt c := by
  cases c with
  | arr entries =>
    simp only [walk_corpus, specCorpusTxt]
    refine List.flatMap_congr (fun e _ => ?_)
    cases e with
    | obj fs =>
      cases h : jsonGet fs "ko_info" <;>
        simp [specEntryTxt, h, walk_ko_info_eq]
    | null => rfl
    | bool b => rfl
    | num n => rfl
    | str s => rfl
    | arr l => rfl
  | obj fs =>
    simp only [walk_corpus, specCorpusTxt]
    cases h : jsonGet fs "ko_info" <;>
      simp [specEntryTxt, h, walk_ko_info_eq]
  | null => rfl
  | bool b => rfl
  | num n => rfl
  | str s => rfl

/-- C5: `_extract_ko_txt` collects exactly the non-empty trimmed `ko_txt`
values along `root -> corpus -> ko_info -> ko_txt`, in document order, joined
by a single newline, skipping malformed entries; in particular the spec's
scenario input extracts to `"A\nB"`. -/
theorem extract_ko_txt_matches_schema_path :
    (∀ payload : Json,
      extract_ko_txt payload = String.intercalate "\n" (specKoTxtValues payload)) ∧
    extract_ko_txt extractorScenario = "A\nB" := by
  constructor
  · intro payload
    unfold extract_ko_txt
    refine congrArg (String.intercalate "\n") ?_
    cases payload with
    | obj fs =>
      simp only [specKoTxtValues, specDocTxt]
      cases h : jsonGet fs "corpus" <;> simp [h, walk_corpus_eq]
    | arr items =>
      simp only [specKoTxtValues]
      refine List.flatMap_congr (fun it _ => ?_)
      cases it with
      | obj fs =>
        simp only [specDocTxt]
        cases h : jsonGet fs "corpus" <;> simp [h, walk_corpus_eq]
      | null => rfl
      | bool b => rfl
      | num n => rfl
      | str s => rfl
      | arr l => rfl
    | null => rfl
    | bool b => rfl
    | num n => rfl
    | str s => rfl
  · decide

/-! ### Merged-file chunking theorems -/

/-- Second components of an enumeration are the original elements. -/
theorem withIdx_map_snd {α : Type} :
    ∀ (l : List α) (n : Nat), (withIdx l n).map Prod.snd = l := by
  intro l
  induction l with
  | nil => intro n; rfl
  | cons a as ih => intro n; simp [withIdx, ih]

/-- First components of an enumeration are consecutive indices. -/
theorem withIdx_map_fst {α : Type} :
    ∀ (l : List α) (n : Nat), (withIdx l n).map Prod.fst = List.range' n l.length := by
  intro l
  induction l with
  | nil => intro n; rfl
  | cons a as ih => intro n; simp [withIdx, ih, List.range'_succ]

/-- C7: the merged-file chunker splits on runs of two or more newlines, each
non-whitespace segment becoming exactly one chunk (its stripped text) with
consecutive indices from 0; the spec's scenario input yields exactly the two
chunks `"doc1a\ndoc1b"` and `"doc2"`. -/
theorem merged_chunking_splits_on_newline_runs :
    mergedChunks "doc1a\ndoc1b\n\n\ndoc2" = [⟨"doc1a\ndoc1b", 0⟩, ⟨"doc2", 1⟩] ∧
    (∀ text : String, (mergedChunks text).map Chunk.text = mergedParts text) ∧
    (∀ text : String, (mergedChunks text).map Chunk.index =
      List.range (mergedParts text).length) := by
  refine ⟨by decide, ?_, ?_⟩
  · intro text
    unfold mergedChunks
    rw [List.map_map]
    have h : (Chunk.text ∘ fun p => (⟨p.2, p.1⟩ : Chunk)) = Prod.snd := rfl
    rw [h, withIdx_map_snd]
  · intro text
    unfold mergedChunks
    rw [List.map_map]
    have h : (Chunk.index ∘ fun p => (⟨p.2, p.1⟩ : Chunk)) = Prod.fst := rfl
    rw [h, withIdx_map_fst, List.range_eq_range']
